import Mathlib

/-!
Verification of the event-listing and booking application.

This file gives a shallow embedding, in Lean, of the four source modules:

* `src/app/api/events/[slug]/route.ts` — the GET-by-slug route and the
  `createBooking` server action;
* `src/database/event.model.ts` — the Event schema pre-save hook
  (slug generation, date normalization, time validation, non-empty lists);
* `src/database/booking.model.ts` — the Booking schema (email validation,
  referential pre-save check, unique compound index);
* the similar-events server action `getSimilarEventsBySlug`.

Strings are modelled as Lean `String`s, documents as structures, and the
document store as lists of records.  JavaScript regular expressions are
translated character-class by character-class into executable boolean
predicates over code points (`Char.toNat`).
-/

namespace DevEvents

/-! ### Character classes of the JavaScript regexes

Each predicate is the exact set of ASCII code points matched by the
corresponding regex character class in the source (the source strings are
ASCII, so the ASCII fragment of the JS semantics is what matters). -/

/-- Membership of a code point in an inclusive range. -/
def inRange (lo hi : Nat) (c : Char) : Bool :=
  decide (lo ≤ c.toNat ∧ c.toNat ≤ hi)

/-- The JS `\s` class on the ASCII range: space, tab, LF, VT, FF, CR. -/
def jsWsC (c : Char) : Bool :=
  c.toNat == 32 || inRange 9 13 c

/-- Decimal digit `[0-9]`. -/
def isDigitC (c : Char) : Bool := inRange 48 57 c

/-- Lowercase letter `[a-z]`. -/
def isLowerC (c : Char) : Bool := inRange 97 122 c

/-- Uppercase letter `[A-Z]`. -/
def isUpperC (c : Char) : Bool := inRange 65 90 c

/-- The JS `\w` class: `[A-Za-z0-9_]`. -/
def isWordC (c : Char) : Bool :=
  isLowerC c || isUpperC c || isDigitC c || c.toNat == 95

/-- The commercial at `@`. -/
def isAtC (c : Char) : Bool := c.toNat == 64

/-- The full stop `.`. -/
def isDotC (c : Char) : Bool := c.toNat == 46

/-- The hyphen-minus `-`. -/
def isDashC (c : Char) : Bool := c.toNat == 45

/-- The colon `:`. -/
def isColonC (c : Char) : Bool := c.toNat == 58

/-- Hexadecimal digit `[0-9a-fA-F]`, as accepted in a 24-character ObjectId. -/
def isHexC (c : Char) : Bool :=
  isDigitC c || inRange 97 102 c || inRange 65 70 c

/-- Lowercase hexadecimal digit `[0-9a-f]`, the output alphabet of
ObjectId hex rendering. -/
def isHexLowerC (c : Char) : Bool := isDigitC c || inRange 97 102 c

/-! ### `String.prototype.toLowerCase` and `String.prototype.trim` -/

/-- ASCII case folding of one character, the effect of JS `toLowerCase`
on the ASCII range. -/
def lowerChar (c : Char) : Char :=
  if isUpperC c then Char.ofNat (c.toNat + 32) else c

/-- JS `toLowerCase` (ASCII fragment). -/
def lowerStr (s : String) : String := String.mk (s.toList.map lowerChar)

/-- Drop a trailing run of `p`-characters (right-to-left fold). -/
def dropTrail (p : Char → Bool) (l : List Char) : List Char :=
  List.foldr (fun c acc => if acc.isEmpty && p c then [] else c :: acc) [] l

/-- JS `trim` on a character list: drop leading and trailing whitespace. -/
def trimList (l : List Char) : List Char :=
  dropTrail jsWsC (l.dropWhile jsWsC)

/-- JS `String.prototype.trim`. -/
def trimStr (s : String) : String := String.mk (trimList s.toList)

/-! ### The email regex `^[^\s@]+@[^\s@]+\.[^\s@]+$`

The regex matches a string exactly when it is `L ++ "@" ++ D` where `L` is
a non-empty run of non-whitespace non-`@` characters and `D` decomposes as
`C ++ "." ++ E` with `C`, `E` non-empty runs of non-whitespace non-`@`
characters (`C` and `E` may themselves contain further dots, so the
condition on `D` is that it is `@`-free, whitespace-free and has a dot in
an interior position). -/

/-- A character admissible in the local part or domain of the email
regex: `[^\s@]`. -/
def emailSegC (c : Char) : Bool := !jsWsC c && !isAtC c

/-- Executable model of the test of the booking email regex
`^[^\s@]+@[^\s@]+\.[^\s@]+$`. -/
def emailRegexTest (s : String) : Bool :=
  let cs := s.toList
  let l := cs.takeWhile (fun c => !isAtC c)
  match cs.dropWhile (fun c => !isAtC c) with
  | [] => false
  | _ :: d =>
    !l.isEmpty && l.all emailSegC && d.all emailSegC &&
      (d.drop 1).dropLast.any isDotC

/-! ### Mongoose `Types.ObjectId` -/

/-- `Types.ObjectId.isValid` on a string: a 24-character hexadecimal
string, or any 12-character string (interpreted as 12 raw bytes). -/
def isValidObjectIdStr (s : String) : Bool :=
  (s.length == 24 && s.toList.all isHexC) || s.length == 12

/-- Lowercase hexadecimal digit for a value below 16. -/
def hexDigitChar (n : Nat) : Char :=
  if n < 10 then Char.ofNat (48 + n) else Char.ofNat (87 + n)

/-- Canonical hex string of an ObjectId constructed by
`new Types.ObjectId(s)`: a 24-hex-character input is case-folded, a
12-character input is byte-wise hex encoded. -/
def objectIdCanon (s : String) : String :=
  if s.length == 24 then lowerStr s
  else
    String.mk (s.toList.flatMap fun c =>
      [hexDigitChar (c.toNat % 256 / 16), hexDigitChar (c.toNat % 16)])

/-! ### The slug format regex `^[a-z0-9]+(?:-[a-z0-9]+)*$` -/

/-- A character allowed inside a slug token: `[a-z0-9]`. -/
def isSlugC (c : Char) : Bool := isLowerC c || isDigitC c

/-- Test of the route slug regex `^[a-z0-9]+(?:-[a-z0-9]+)*$`: splitting
at every hyphen must give non-empty, all-alphanumeric tokens. -/
def slugFormatOk (s : String) : Bool :=
  (s.toList.splitOn '-').all fun t => !t.isEmpty && t.all isSlugC

/-! ### Data model -/

/-- An Event document, restricted to the fields read by the functions
under verification (`_id` is the canonical hex string of the ObjectId). -/
structure EventRec where
  id : String
  title : String
  slug : String
  tags : List String
  date : String
  time : String
  createdAt : Nat
  deriving Repr, DecidableEq

/-- A Booking document (`eventId` is the canonical hex string of the
referenced Event ObjectId; `email` is stored after the schema setters). -/
structure BookingRec where
  id : String
  eventId : String
  email : String
  deriving Repr, DecidableEq

/-! ### `GET /api/events/[slug]` -/

/-- The JSON body plus HTTP status of a response of the route. -/
structure GetResponse where
  status : Nat
  message : String
  event : Option EventRec
  deriving Repr, DecidableEq

/-- Message of the 400 response for a missing slug parameter. -/
def msgSlugRequired : String := "Slug parameter is required"

/-- Message of the 400 response for a malformed slug. -/
def msgInvalidSlug : String :=
  "Invalid slug format. Slug must contain only lowercase letters, numbers, and hyphens"

/-- `GET /api/events/[slug]`: validate the parameter, validate its format,
then query the Event collection by slug.  The store is the list of Event
documents; `none` as the parameter models an absent (`undefined`) slug. -/
def getEventBySlug (slugParam : Option String) (events : List EventRec) :
    GetResponse :=
  match slugParam with
  | none => { status := 400, message := msgSlugRequired, event := none }
  | some slug =>
    if slug = "" then
      { status := 400, message := msgSlugRequired, event := none }
    else if !slugFormatOk slug then
      { status := 400, message := msgInvalidSlug, event := none }
    else
      match events.find? (fun e => e.slug == slug) with
      | none =>
        { status := 404
          message := "Event with slug \x27" ++ slug ++ "\x27 not found"
          event := none }
      | some e =>
        { status := 200, message := "Event fetched successfully", event := some e }

/-! ### Substring search, the mechanism of the `catch` block

`createBooking` classifies a thrown error by testing whether its message
contains a marker substring (`String.prototype.includes`). -/

/-- `leadEq n h`: `n` is an initial segment of `h`. -/
def leadEq : List Char → List Char → Bool
  | [], _ => true
  | _ :: _, [] => false
  | a :: as, b :: bs => a == b && leadEq as bs

/-- `hasSubL n h`: `n` occurs contiguously inside `h`. -/
def hasSubL (needle : List Char) : List Char → Bool
  | [] => leadEq needle []
  | c :: rest => leadEq needle (c :: rest) || hasSubL needle rest

/-- JS `hay.includes(needle)`. -/
def hasSubStr (needle hay : String) : Bool := hasSubL needle.toList hay.toList

/-! ### The Booking save pipeline (`booking.model.ts`)

`Booking.create` runs, in order: the schema setters (`trim`, `lowercase`
on `email`), the schema validators (required fields, the email regex), the
user pre-save hook (existence of the referenced Event), and the insert
itself, which enforces the unique compound index on `(eventId, email)`.
A failure at any stage is an `Error` carrying a message string. -/

/-- Error message thrown by the Booking pre-save hook for a dangling
`eventId` (interpolates the id, as the source does). -/
def msgEventMissing (eid : String) : String :=
  "Event with ID " ++ eid ++ " does not exist"

/-- Error message of a MongoDB unique-index violation on the compound
index `(eventId, email)`; the source only ever tests it for the substring
"duplicate key". -/
def msgDupKey : String :=
  "E11000 duplicate key error collection: bookings index: eventId_1_email_1 dup key"

/-- Error message of a failed email validator, in the mongoose
`ValidationError` format. -/
def msgEmailValidator : String :=
  "Booking validation failed: email: Please provide a valid email address"

/-- Error message of a failed required-email validator. -/
def msgEmailRequired : String :=
  "Booking validation failed: email: Email is required"

/-- `Booking.create` / `save`: setters, validators, referential pre-save
hook, then insert against the unique `(eventId, email)` index.  `events`
is the Event collection; `bookings` is the Booking collection at insert
time.  Returns the stored document or the thrown error message. -/
def bookingSave (events : List EventRec) (bookings : List BookingRec)
    (b : BookingRec) : Except String BookingRec :=
  let em := lowerStr (trimStr b.email)
  if em = "" then .error msgEmailRequired
  else if !emailRegexTest em then .error msgEmailValidator
  else if (events.find? (fun e => e.id == b.eventId)).isNone then
    .error (msgEventMissing b.eventId)
  else if (bookings.find? (fun x => x.eventId == b.eventId && x.email == em)).isSome
  then .error msgDupKey
  else .ok { b with email := em }

/-! ### The `createBooking` server action (`booking.actions.ts`) -/

/-- The `BookingResponse` of the server action.  `data` is
`(bookingId, eventId, email)` when present. -/
structure BookingResponse where
  success : Bool
  message : String
  data : Option (String × String × String)
  error : Option String
  deriving Repr, DecidableEq

/-- A rejection with no `data` and no `error` payload. -/
def reject (message : String) : BookingResponse :=
  { success := false, message := message, data := none, error := none }

/-- The document store visible to `createBooking`. -/
structure BookingStore where
  events : List EventRec
  bookings : List BookingRec
  deriving Repr, DecidableEq

/-- The `catch` block of `createBooking`: classify the thrown message by
substring sniffing, in source order. -/
def catchMap (msg : String) : BookingResponse :=
  if hasSubStr "duplicate key" msg then
    reject "You have already booked this event"
  else if hasSubStr "does not exist" msg then
    reject "Event not found"
  else if hasSubStr "validation failed" msg then
    { success := false, message := "Invalid booking data"
      data := none, error := some msg }
  else
    { success := false, message := "Failed to create booking. Please try again."
      data := none, error := some msg }

/-- The `createBooking` server action.  `concurrent` models Booking
documents inserted by other requests between this request's duplicate
`findOne` and its insert (the race the unique index resolves); `newId` is
the ObjectId the store assigns to a newly inserted document.  Returns the
`BookingResponse` together with the document this call inserted, if any. -/
def createBooking (store : BookingStore) (concurrent : List BookingRec)
    (newId : String) (eventId email : String) :
    BookingResponse × Option BookingRec :=
  if trimStr eventId = "" then (reject "Event ID is required", none)
  else if trimStr email = "" then (reject "Email is required", none)
  else if !emailRegexTest email then (reject "Invalid email format", none)
  else if !isValidObjectIdStr eventId then (reject "Invalid event ID format", none)
  else
    let eid := objectIdCanon eventId
    let em := lowerStr (trimStr email)
    if (store.bookings.find? fun b => b.eventId == eid && b.email == em).isSome then
      (reject "You have already booked this event", none)
    else
      match bookingSave store.events (store.bookings ++ concurrent)
          { id := newId, eventId := eid, email := em } with
      | .ok b =>
        ({ success := true, message := "Booking created successfully"
           data := some (b.id, b.eventId, b.email), error := none },
         some b)
      | .error msg => (catchMap msg, none)

/-! ### Slug generation (`event.model.ts` pre-save hook) -/

/-- Worker for `collapseRuns`: `inRun` records whether the previous
character belonged to the run being collapsed (in which case the
replacement character has already been emitted). -/
def collapseRunsAux (p : Char → Bool) (r : Char) : Bool → List Char → List Char
  | _, [] => []
  | inRun, c :: cs =>
    if p c then
      if inRun then collapseRunsAux p r true cs
      else r :: collapseRunsAux p r true cs
    else c :: collapseRunsAux p r false cs

/-- JS global replacement of every maximal non-empty run of characters of
class `p` by the single character `r` (the shape of the hook's
whitespace-to-hyphen and hyphen-collapsing replacements). -/
def collapseRuns (p : Char → Bool) (r : Char) (l : List Char) : List Char :=
  collapseRunsAux p r false l

/-- The slug derivation of the Event pre-save hook: lowercase, trim,
delete every character outside `\w`, `\s` and the hyphen, replace each
whitespace run by one hyphen, collapse hyphen runs, and strip leading and
trailing hyphens. -/
def slugify (title : String) : String :=
  let step1 := (trimStr (lowerStr title)).toList
  let step2 := step1.filter fun c => isWordC c || jsWsC c || isDashC c
  let step3 := collapseRuns jsWsC '-' step2
  let step4 := collapseRuns isDashC '-' step3
  String.mk (dropTrail isDashC (step4.dropWhile isDashC))

/-! ### Time validation: the regex `^([0-1]?[0-9]|2[0-3]):[0-5][0-9]$` -/

/-- Test of the time regex `^([0-1]?[0-9]|2[0-3]):[0-5][0-9]$`.  The hour
group matches one digit `[0-9]`, two digits `[0-1][0-9]`, or `2[0-3]`; the
minute group is `[0-5][0-9]`. -/
def timeRegexTest (s : String) : Bool :=
  match s.toList with
  | [h1, c, m1, m2] =>
    isDigitC h1 && isColonC c && inRange 48 53 m1 && isDigitC m2
  | [h1, h2, c, m1, m2] =>
    (inRange 48 49 h1 && isDigitC h2 || h1.toNat == 50 && inRange 48 51 h2) &&
      isColonC c && inRange 48 53 m1 && isDigitC m2
  | _ => false

/-! ### Date normalization: `new Date(s)` then `toISOString().split("T")[0]` -/

/-- Decimal value of a digit character. -/
def digitVal (c : Char) : Nat := c.toNat - 48

/-- Gregorian leap-year test. -/
def isLeap (y : Nat) : Bool := y % 4 == 0 && (y % 100 != 0 || y % 400 == 0)

/-- Days in a month of the Gregorian calendar. -/
def daysInMonth (y m : Nat) : Nat :=
  if m == 2 then (if isLeap y then 29 else 28)
  else if m == 4 || m == 6 || m == 9 || m == 11 then 30
  else 31

/-- Validated calendar date from four+two+two digit characters. -/
def mkDate (y1 y2 y3 y4 m1 m2 d1 d2 : Char) : Option (Nat × Nat × Nat) :=
  if isDigitC y1 && isDigitC y2 && isDigitC y3 && isDigitC y4 &&
      isDigitC m1 && isDigitC m2 && isDigitC d1 && isDigitC d2 then
    let y := 1000 * digitVal y1 + 100 * digitVal y2 + 10 * digitVal y3 + digitVal y4
    let m := 10 * digitVal m1 + digitVal m2
    let d := 10 * digitVal d1 + digitVal d2
    if 1 ≤ m && m ≤ 12 && 1 ≤ d && d ≤ daysInMonth y m then some (y, m, d)
    else none
  else none

/-- Valid `HH:MM` components of an ISO time-of-day. -/
def isoTimeOk (h1 h2 n1 n2 : Char) : Bool :=
  isDigitC h1 && isDigitC h2 && isDigitC n1 && isDigitC n2 &&
    10 * digitVal h1 + digitVal h2 ≤ 23 && 10 * digitVal n1 + digitVal n2 ≤ 59

/-- Model of ECMAScript `new Date(s)` restricted to the ISO 8601 formats
with an unambiguous UTC interpretation: `YYYY-MM-DD`,
`YYYY-MM-DDTHH:MMZ`, `YYYY-MM-DDTHH:MM:SSZ` and
`YYYY-MM-DDTHH:MM:SS.sssZ` (the `Date` constructor is an external platform
primitive; date-only forms and `Z`-suffixed date-times are parsed as UTC,
so the UTC calendar date of the resulting instant — all the pre-save hook
uses — is the date component itself).  Every other string is treated as
unparseable. -/
def jsParseDate (s : String) : Option (Nat × Nat × Nat) :=
  match s.toList with
  | [y1, y2, y3, y4, c1, m1, m2, c2, d1, d2] =>
    if isDashC c1 && isDashC c2 then mkDate y1 y2 y3 y4 m1 m2 d1 d2 else none
  | [y1, y2, y3, y4, c1, m1, m2, c2, d1, d2, t, h1, h2, c3, n1, n2, z] =>
    if isDashC c1 && isDashC c2 && t == 'T' && isColonC c3 && z == 'Z' &&
        isoTimeOk h1 h2 n1 n2 then
      mkDate y1 y2 y3 y4 m1 m2 d1 d2
    else none
  | [y1, y2, y3, y4, c1, m1, m2, c2, d1, d2, t, h1, h2, c3, n1, n2, c4, s1, s2, z] =>
    if isDashC c1 && isDashC c2 && t == 'T' && isColonC c3 && isColonC c4 &&
        z == 'Z' && isoTimeOk h1 h2 n1 n2 && isDigitC s1 && inRange 48 53 s1 &&
        isDigitC s2 then
      mkDate y1 y2 y3 y4 m1 m2 d1 d2
    else none
  | [y1, y2, y3, y4, c1, m1, m2, c2, d1, d2, t, h1, h2, c3, n1, n2, c4, s1, s2,
      dot, f1, f2, f3, z] =>
    if isDashC c1 && isDashC c2 && t == 'T' && isColonC c3 && isColonC c4 &&
        isDotC dot && z == 'Z' && isoTimeOk h1 h2 n1 n2 && inRange 48 53 s1 &&
        isDigitC s2 && isDigitC f1 && isDigitC f2 && isDigitC f3 then
      mkDate y1 y2 y3 y4 m1 m2 d1 d2
    else none
  | _ => none

/-- Digit character of `n % 10`. -/
def digitCharOf (n : Nat) : Char := Char.ofNat (48 + n % 10)

/-- Two-digit zero-padded rendering. -/
def pad2 (n : Nat) : String := String.mk [digitCharOf (n / 10), digitCharOf n]

/-- Four-digit zero-padded rendering. -/
def pad4 (n : Nat) : String :=
  String.mk [digitCharOf (n / 1000), digitCharOf (n / 100), digitCharOf (n / 10),
    digitCharOf n]

/-- `toISOString().split("T")[0]` of an instant whose UTC calendar date is
`(y, m, d)`. -/
def isoDatePart : Nat × Nat × Nat → String
  | (y, m, d) => pad4 y ++ "-" ++ pad2 m ++ "-" ++ pad2 d

/-! ### The Event pre-save hook -/

/-- An Event document as seen by the pre-save hook (only the fields the
hook reads or writes). -/
structure EventDoc where
  title : String
  slug : String
  date : String
  time : String
  agenda : List String
  tags : List String
  deriving Repr, DecidableEq

/-- Which paths of the document `isModified` reports as modified. -/
structure ModFlags where
  title : Bool
  date : Bool
  time : Bool
  deriving Repr, DecidableEq

/-- Error message of the date branch of the hook. -/
def msgInvalidDate : String := "Invalid date format. Use a valid date string."

/-- Error message of the time branch of the hook. -/
def msgInvalidTime : String := "Invalid time format. Use HH:MM format (e.g., 14:30)."

/-- The Event pre-save hook: regenerate the slug when the title is
modified; normalize the date when modified, throwing on an unparseable
string; validate the time format when modified; reject empty agenda or
tags.  Returns the updated document or the thrown error message. -/
def eventPreSave (d : EventDoc) (m : ModFlags) : Except String EventDoc :=
  let d1 := if m.title then { d with slug := slugify d.title } else d
  match (if m.date then
          match jsParseDate d1.date with
          | none => Except.error msgInvalidDate
          | some ymd => Except.ok { d1 with date := isoDatePart ymd }
        else Except.ok d1 : Except String EventDoc) with
  | .error e => .error e
  | .ok d2 =>
    if m.time && !timeRegexTest d2.time then .error msgInvalidTime
    else if d2.agenda.isEmpty then .error "Agenda cannot be empty"
    else if d2.tags.isEmpty then .error "Tags cannot be empty"
    else .ok d2

/-! ### The similar-events server action (`getSimilarEventsBySlug`) -/

/-- The store visible to `getSimilarEventsBySlug`; `fail := true` models a
store whose operations throw (connection failure or any unexpected
query-time error). -/
structure SimilarStore where
  events : List EventRec
  fail : Bool
  deriving Repr, DecidableEq

/-- The comparator realizing `sort({ createdAt: -1 })`. -/
def createdDesc (a b : EventRec) : Bool := decide (b.createdAt ≤ a.createdAt)

/-- The query filter `{ _id: { $ne: ev._id }, tags: { $in: ev.tags } }`:
every other Event whose tag array meets the source's tag array. -/
def similarFilter (events : List EventRec) (src : EventRec) : List EventRec :=
  events.filter fun e => !(e.id == src.id) && e.tags.any fun t => src.tags.contains t

/-- The `try` body of `getSimilarEventsBySlug`: validate the slug, connect
(throws iff `store.fail`), resolve the source Event, and run the
similar-events query. -/
def getSimilarBody (store : SimilarStore) (slug : String) (limit : Nat) :
    Except String (List EventRec) :=
  if trimStr slug = "" then .ok []
  else if store.fail then .error "store operation failed"
  else
    match store.events.find? (fun e => e.slug == slug) with
    | none => .ok []
    | some ev =>
      if ev.tags.isEmpty then .ok []
      else .ok (((similarFilter store.events ev).mergeSort createdDesc).take limit)

/-- `getSimilarEventsBySlug`: the body wrapped in the catch-all that turns
every thrown error into the empty list. -/
def getSimilarEventsBySlug (store : SimilarStore) (slug : String)
    (limit : Nat) : List EventRec :=
  match getSimilarBody store slug limit with
  | .ok l => l
  | .error _ => []

/-! ### Comparison definitions for the refinement claims

The next definitions are not translations of the source: they state, in
executable form, shapes that the specification's words describe, to be
compared against the source-derived definitions above. -/

/-- Structural parse of a candidate time string into hour and minute: one
or two digits, a colon, two digits (no range restriction beyond digit
shape).  Used to characterize which strings the source time regex
accepts. -/
def parseTimeHM (s : String) : Option (Nat × Nat) :=
  match s.toList with
  | [h1, c, m1, m2] =>
    if isColonC c && isDigitC h1 && isDigitC m1 && isDigitC m2 then
      some (digitVal h1, 10 * digitVal m1 + digitVal m2)
    else none
  | [h1, h2, c, m1, m2] =>
    if isColonC c && isDigitC h1 && isDigitC h2 && isDigitC m1 && isDigitC m2 then
      some (10 * digitVal h1 + digitVal h2, 10 * digitVal m1 + digitVal m2)
    else none
  | _ => none

/-- The two-digit 24-hour `HH:MM` shape as the specification words it:
exactly two hour digits `00`–`23`, a colon, two minute digits `00`–`59`. -/
def specTwoDigitHHMM (s : String) : Bool :=
  match s.toList with
  | [h1, h2, c, m1, m2] =>
    (inRange 48 49 h1 && isDigitC h2 || h1.toNat == 50 && inRange 48 51 h2) &&
      isColonC c && inRange 48 53 m1 && isDigitC m2
  | _ => false

/-- The character set the specification claims for derived slugs:
lowercase alphanumerics and hyphens only. -/
def specSlugChar (c : Char) : Bool := isLowerC c || isDigitC c || isDashC c

/-- The character set the slug derivation actually produces: lowercase
alphanumerics, underscores and hyphens. -/
def slugOutC (c : Char) : Bool :=
  isLowerC c || isDigitC c || c.toNat == 95 || isDashC c

/-! ## Helper lemmas -/

/-! ### Character-level lemmas -/

theorem inRange_iff {lo hi : Nat} {c : Char} :
    inRange lo hi c = true ↔ lo ≤ c.toNat ∧ c.toNat ≤ hi := by
  simp [inRange]

theorem isUpperC_toNat {c : Char} (h : isUpperC c = true) :
    65 ≤ c.toNat ∧ c.toNat ≤ 90 := by
  simpa [isUpperC, inRange] using h

theorem toNat_lowerChar (c : Char) :
    (lowerChar c).toNat = if isUpperC c then c.toNat + 32 else c.toNat := by
  unfold lowerChar
  by_cases h : isUpperC c
  · obtain ⟨h1, h2⟩ := isUpperC_toNat h
    have hv : (c.toNat + 32).isValidChar := Or.inl (by omega)
    simp only [Char.toNat, UInt32.toNat] at hv
    simp [h, Char.ofNat, hv, Char.ofNatAux, Char.toNat, UInt32.toNat,
      BitVec.toNat_ofNatLt]
  · simp [h]

theorem toNat_lowerChar_pos {c : Char} (h : isUpperC c = true) :
    (lowerChar c).toNat = c.toNat + 32 := by
  rw [toNat_lowerChar, if_pos h]

theorem toNat_lowerChar_neg {c : Char} (h : ¬isUpperC c = true) :
    (lowerChar c).toNat = c.toNat := by
  rw [toNat_lowerChar, if_neg h]

theorem jsWsC_lowerChar (c : Char) : jsWsC (lowerChar c) = jsWsC c := by
  by_cases h : isUpperC c
  · obtain ⟨h1, h2⟩ := isUpperC_toNat h
    rw [Bool.eq_iff_iff]
    simp [jsWsC, inRange, toNat_lowerChar_pos h]
    omega
  · simp [jsWsC, inRange, toNat_lowerChar_neg h]

theorem isAtC_lowerChar (c : Char) : isAtC (lowerChar c) = isAtC c := by
  by_cases h : isUpperC c
  · obtain ⟨h1, h2⟩ := isUpperC_toNat h
    rw [Bool.eq_iff_iff]
    simp [isAtC, toNat_lowerChar_pos h]
    omega
  · simp [isAtC, toNat_lowerChar_neg h]

theorem isDotC_lowerChar (c : Char) : isDotC (lowerChar c) = isDotC c := by
  by_cases h : isUpperC c
  · obtain ⟨h1, h2⟩ := isUpperC_toNat h
    rw [Bool.eq_iff_iff]
    simp [isDotC, toNat_lowerChar_pos h]
    omega
  · simp [isDotC, toNat_lowerChar_neg h]

theorem emailSegC_lowerChar (c : Char) : emailSegC (lowerChar c) = emailSegC c := by
  simp [emailSegC, jsWsC_lowerChar, isAtC_lowerChar]

theorem isUpperC_lowerChar (c : Char) : isUpperC (lowerChar c) = false := by
  by_cases h : isUpperC c
  · obtain ⟨h1, h2⟩ := isUpperC_toNat h
    rw [Bool.eq_false_iff]
    intro hc
    obtain ⟨h3, h4⟩ := isUpperC_toNat hc
    rw [toNat_lowerChar_pos h] at h3 h4
    omega
  · rw [Bool.not_eq_true] at h
    rwa [lowerChar, if_neg (by simp [h])]

theorem lowerChar_eq_of_not_upper {c : Char} (h : isUpperC c = false) :
    lowerChar c = c := by
  simp [lowerChar, h]

theorem lowerChar_lowerChar (c : Char) : lowerChar (lowerChar c) = lowerChar c :=
  lowerChar_eq_of_not_upper (isUpperC_lowerChar c)

/-! ### List-level lemmas: `dropWhile`, `dropTrail`, `trimList` -/

theorem string_mk_toList (s : String) : String.mk s.toList = s := rfl

theorem toList_lowerStr (s : String) : (lowerStr s).toList = s.toList.map lowerChar := rfl

theorem toList_trimStr (s : String) : (trimStr s).toList = trimList s.toList := rfl

theorem dropWhile_len_le (p : Char → Bool) (l : List Char) :
    (l.dropWhile p).length ≤ l.length := by
  induction l with
  | nil => simp
  | cons a t ih => by_cases h : p a <;> simp [List.dropWhile_cons, h] <;> omega

theorem dropWhile_head_false {p : Char → Bool} {l : List Char} {a : Char}
    {t : List Char} (h : l.dropWhile p = a :: t) : p a = false := by
  induction l with
  | nil => simp at h
  | cons b u ih =>
    rw [List.dropWhile_cons] at h
    by_cases hb : p b
    · rw [if_pos hb] at h; exact ih h
    · rw [if_neg hb] at h
      cases h
      simpa using hb

theorem dropWhile_eq_self {p : Char → Bool} {l : List Char}
    (h : ∀ c ∈ l, p c = false) : l.dropWhile p = l := by
  cases l with
  | nil => rfl
  | cons a t => rw [List.dropWhile_cons, if_neg (by simp [h a (by simp)])]

theorem dropWhile_dropWhile (p : Char → Bool) (l : List Char) :
    (l.dropWhile p).dropWhile p = l.dropWhile p := by
  cases hu : l.dropWhile p with
  | nil => rfl
  | cons a t =>
    rw [List.dropWhile_cons, if_neg (by simp [dropWhile_head_false hu])]

theorem dropTrail_cons (p : Char → Bool) (a : Char) (t : List Char) :
    dropTrail p (a :: t) =
      if (dropTrail p t).isEmpty && p a then [] else a :: dropTrail p t := rfl

theorem dropTrail_eq_self {p : Char → Bool} {l : List Char}
    (h : ∀ c ∈ l, p c = false) : dropTrail p l = l := by
  induction l with
  | nil => rfl
  | cons a t ih =>
    rw [dropTrail_cons, if_neg (by simp [h a (by simp)]),
      ih fun c hc => h c (by simp [hc])]

theorem mem_dropTrail {p : Char → Bool} {l : List Char} {c : Char}
    (h : c ∈ dropTrail p l) : c ∈ l := by
  induction l with
  | nil => simpa [dropTrail] using h
  | cons a t ih =>
    rw [dropTrail_cons] at h
    by_cases hc : (dropTrail p t).isEmpty && p a
    · rw [if_pos hc] at h; simp at h
    · rw [if_neg hc] at h
      rcases List.mem_cons.mp h with h | h
      · simp [h]
      · simp [ih h]

theorem dropTrail_idem (p : Char → Bool) (l : List Char) :
    dropTrail p (dropTrail p l) = dropTrail p l := by
  induction l with
  | nil => rfl
  | cons a t ih =>
    rw [dropTrail_cons]
    by_cases hc : (dropTrail p t).isEmpty && p a
    · rw [if_pos hc]; rfl
    · rw [if_neg hc, dropTrail_cons, ih, if_neg hc]

theorem dropTrail_getLast_false {p : Char → Bool} {l : List Char} {a : Char}
    (h : (dropTrail p l).getLast? = some a) : p a = false := by
  induction l with
  | nil => simp [dropTrail] at h
  | cons b t ih =>
    rw [dropTrail_cons] at h
    by_cases hc : (dropTrail p t).isEmpty && p b
    · rw [if_pos hc] at h; simp at h
    · rw [if_neg hc] at h
      rw [List.getLast?_cons] at h
      cases he : dropTrail p t with
      | nil =>
        rw [he] at h
        simp at h
        rw [Bool.and_eq_true] at hc
        push_neg at hc
        subst h
        have := hc (by simp [he, List.isEmpty_iff])
        simpa using this
      | cons x xs =>
        rw [he] at h
        simp only [List.getLast?_cons] at h ⊢
        apply ih
        rw [he, List.getLast?_cons]
        simpa using h

theorem dropTrail_map {f : Char → Char} {p : Char → Bool}
    (hf : ∀ c, p (f c) = p c) (l : List Char) :
    dropTrail p (l.map f) = (dropTrail p l).map f := by
  induction l with
  | nil => rfl
  | cons a t ih =>
    rw [List.map_cons, dropTrail_cons, dropTrail_cons, ih, hf]
    by_cases hc : (dropTrail p t).isEmpty && p a
    · rw [if_pos _, if_pos hc]
      · rfl
      · rcases Bool.and_eq_true .. |>.mp hc with ⟨h1, h2⟩
        rw [List.isEmpty_iff] at h1
        simp [h1, h2]
    · rw [if_neg _, if_neg hc]
      · rfl
      · intro hand
        apply hc
        rcases Bool.and_eq_true .. |>.mp hand with ⟨h1, h2⟩
        rw [List.isEmpty_iff, List.map_eq_nil_iff] at h1
        simp [List.isEmpty_iff, h1, h2]

theorem nolead_dropTrail {p : Char → Bool} {u : List Char}
    (hu : u.dropWhile p = u) : (dropTrail p u).dropWhile p = dropTrail p u := by
  cases u with
  | nil => rfl
  | cons a t =>
    have ha : p a = false := by
      rw [List.dropWhile_cons] at hu
      by_cases hb : p a
      · rw [if_pos hb] at hu
        have := dropWhile_len_le p t
        rw [hu] at this
        simp at this
      · simpa using hb
    rw [dropTrail_cons]
    by_cases hc : (dropTrail p t).isEmpty && p a
    · rw [if_pos hc]; rfl
    · rw [if_neg hc, List.dropWhile_cons, if_neg (by simp [ha])]

theorem trimList_eq_self {l : List Char} (h : ∀ c ∈ l, jsWsC c = false) :
    trimList l = l := by
  rw [trimList, dropWhile_eq_self h, dropTrail_eq_self h]

theorem trimList_idem (l : List Char) : trimList (trimList l) = trimList l := by
  rw [trimList, trimList, nolead_dropTrail (dropWhile_dropWhile jsWsC l),
    dropTrail_idem]

theorem trimList_map_lower (l : List Char) :
    trimList (l.map lowerChar) = (trimList l).map lowerChar := by
  have hp : (fun c => jsWsC c) ∘ lowerChar = fun c => jsWsC c :=
    funext fun c => by simp [Function.comp, jsWsC_lowerChar]
  rw [trimList, trimList, List.dropWhile_map, hp, dropTrail_map jsWsC_lowerChar]

/-! ### Email regex lemmas -/

theorem isEmpty_map (f : Char → Char) (l : List Char) :
    (l.map f).isEmpty = l.isEmpty := by cases l <;> rfl

theorem emailTest_elim {s : String} (h : emailRegexTest s = true) :
    ∃ a d, s.toList.dropWhile (fun c => !isAtC c) = a :: d ∧ isAtC a = true ∧
      (s.toList.takeWhile fun c => !isAtC c) ≠ [] ∧
      (∀ c ∈ s.toList.takeWhile fun c => !isAtC c, emailSegC c = true) ∧
      (∀ c ∈ d, emailSegC c = true) ∧
      ((d.drop 1).dropLast.any isDotC) = true := by
  simp only [emailRegexTest] at h
  cases hd : s.toList.dropWhile (fun c => !isAtC c) with
  | nil => rw [hd] at h; simp at h
  | cons a d =>
    rw [hd] at h
    simp only [Bool.and_eq_true, Bool.not_eq_true', List.isEmpty_iff,
      List.all_eq_true] at h
    exact ⟨a, d, rfl, by simpa using dropWhile_head_false hd,
      by simpa using h.1.1.1, h.1.1.2, h.1.2, h.2⟩

theorem emailTest_noWs {s : String} (h : emailRegexTest s = true) :
    ∀ c ∈ s.toList, jsWsC c = false := by
  obtain ⟨a, d, hd, hat, -, hl, hdall, -⟩ := emailTest_elim h
  intro c hc
  have hsplit := List.takeWhile_append_dropWhile (p := fun c => !isAtC c)
    (l := s.toList)
  rw [hd] at hsplit
  rw [← hsplit] at hc
  rcases List.mem_append.mp hc with hcl | hcr
  · have := hl c hcl
    simp only [emailSegC, Bool.and_eq_true, Bool.not_eq_true'] at this
    exact this.1
  · rcases List.mem_cons.mp hcr with rfl | hcd
    · simp only [isAtC, beq_iff_eq] at hat
      simp [jsWsC, inRange, hat]
    · have := hdall c hcd
      simp only [emailSegC, Bool.and_eq_true, Bool.not_eq_true'] at this
      exact this.1

theorem emailTest_toList_ne {s : String} (h : emailRegexTest s = true) :
    s.toList ≠ [] := by
  obtain ⟨a, d, hd, -⟩ := emailTest_elim h
  intro hnil
  rw [hnil] at hd
  simp at hd

theorem emailTest_ne_empty {s : String} (h : emailRegexTest s = true) : s ≠ "" := by
  intro hs
  exact emailTest_toList_ne h (by simp [hs])

theorem emailTest_lower (s : String) :
    emailRegexTest (lowerStr s) = emailRegexTest s := by
  have hAt : ((fun c => !isAtC c) ∘ lowerChar) = fun c => !isAtC c :=
    funext fun c => by simp [Function.comp, isAtC_lowerChar]
  have hSeg : (emailSegC ∘ lowerChar) = emailSegC :=
    funext fun c => by simp [Function.comp, emailSegC_lowerChar]
  have hDot : (isDotC ∘ lowerChar) = isDotC :=
    funext fun c => by simp [Function.comp, isDotC_lowerChar]
  simp only [emailRegexTest, toList_lowerStr, List.takeWhile_map,
    List.dropWhile_map, hAt]
  cases hd : s.toList.dropWhile (fun c => !isAtC c) with
  | nil => rfl
  | cons a d =>
    simp only [List.map_cons, isEmpty_map, List.all_map, hSeg, ← List.map_drop,
      ← List.map_dropLast, List.any_map, hDot]

theorem lowerStr_idem (s : String) : lowerStr (lowerStr s) = lowerStr s := by
  apply String.ext
  show (s.toList.map lowerChar).map lowerChar = s.toList.map lowerChar
  rw [List.map_map]
  exact List.map_congr_left fun c _ => by simp [Function.comp, lowerChar_lowerChar]

theorem lowerStr_noWs {s : String} (h : ∀ c ∈ s.toList, jsWsC c = false) :
    ∀ c ∈ (lowerStr s).toList, jsWsC c = false := by
  intro c hc
  rw [toList_lowerStr] at hc
  obtain ⟨b, hb, rfl⟩ := List.mem_map.mp hc
  rw [jsWsC_lowerChar]
  exact h b hb

theorem trimStr_eq_self {s : String} (h : ∀ c ∈ s.toList, jsWsC c = false) :
    trimStr s = s := by
  rw [trimStr, trimList_eq_self h, string_mk_toList]

theorem lowerTrim_collapse {s : String} (h : ∀ c ∈ s.toList, jsWsC c = false) :
    lowerStr (trimStr (lowerStr s)) = lowerStr s := by
  rw [trimStr_eq_self (lowerStr_noWs h), lowerStr_idem]

/-! ### Substring lemmas -/

theorem toList_append (a b : String) : (a ++ b).toList = a.toList ++ b.toList := rfl

theorem leadEq_iff {n h : List Char} : leadEq n h = true ↔ ∃ t, h = n ++ t := by
  induction n generalizing h with
  | nil => simp [leadEq]
  | cons a as ih =>
    cases h with
    | nil => simp [leadEq]
    | cons b bs =>
      simp only [leadEq, Bool.and_eq_true, beq_iff_eq, ih, List.cons_append,
        List.cons.injEq]
      constructor
      · rintro ⟨rfl, t, rfl⟩; exact ⟨t, rfl, rfl⟩
      · rintro ⟨t, rfl, rfl⟩; exact ⟨rfl, t, rfl⟩

theorem hasSubL_iff {n h : List Char} :
    hasSubL n h = true ↔ ∃ p q, h = p ++ n ++ q := by
  induction h with
  | nil =>
    simp only [hasSubL, leadEq_iff]
    constructor
    · rintro ⟨t, ht⟩
      exact ⟨[], t, by simpa using ht⟩
    · rintro ⟨p, q, hpq⟩
      rcases List.append_eq_nil.mp (List.append_eq_nil.mp hpq.symm).1 with ⟨-, h2⟩
      exact ⟨[], by simp [h2]⟩
  | cons c r ih =>
    simp only [hasSubL, Bool.or_eq_true, leadEq_iff, ih]
    constructor
    · rintro (⟨t, ht⟩ | ⟨p, q, hpq⟩)
      · exact ⟨[], t, by simpa using ht⟩
      · exact ⟨c :: p, q, by simp [hpq]⟩
    · rintro ⟨p, q, hpq⟩
      cases p with
      | nil => exact Or.inl ⟨q, by simpa using hpq⟩
      | cons x xs =>
        rw [List.cons_append, List.cons_append] at hpq
        injection hpq with h1 h2
        exact Or.inr ⟨xs, q, h2⟩

theorem mem_of_hasSubL {n h : List Char} (hs : hasSubL n h = true) {c : Char}
    (hc : c ∈ n) : c ∈ h := by
  obtain ⟨p, q, rfl⟩ := hasSubL_iff.mp hs
  simp [hc]

theorem hasSubStr_mem {needle hay : String} (hs : hasSubStr needle hay = true)
    {c : Char} (hc : c ∈ needle.toList) : c ∈ hay.toList :=
  mem_of_hasSubL hs hc

theorem hasSubStr_suffix (needle pre : String) :
    hasSubStr needle (pre ++ needle) = true := by
  rw [hasSubStr, hasSubL_iff]
  exact ⟨pre.toList, [], by simp [toList_append]⟩

/-! ### ObjectId canonicalization lemmas -/

theorem hexDigitChar_toNat {n : Nat} (h : n < 16) :
    (hexDigitChar n).toNat = if n < 10 then 48 + n else 87 + n := by
  unfold hexDigitChar
  by_cases h10 : n < 10
  · have hv : (48 + n).isValidChar := Or.inl (by omega)
    simp only [Char.toNat, UInt32.toNat] at hv
    simp [h10, Char.ofNat, hv, Char.ofNatAux, Char.toNat, UInt32.toNat,
      BitVec.toNat_ofNatLt]
  · have hv : (87 + n).isValidChar := Or.inl (by omega)
    simp only [Char.toNat, UInt32.toNat] at hv
    simp [h10, Char.ofNat, hv, Char.ofNatAux, Char.toNat, UInt32.toNat,
      BitVec.toNat_ofNatLt]

theorem isHexLowerC_hexDigitChar {n : Nat} (h : n < 16) :
    isHexLowerC (hexDigitChar n) = true := by
  rw [isHexLowerC, isDigitC]
  by_cases h10 : n < 10
  · simp [inRange, hexDigitChar_toNat h, h10]
    omega
  · simp [inRange, hexDigitChar_toNat h, h10]
    omega

theorem isHexLowerC_lowerChar_of_isHexC {c : Char} (h : isHexC c = true) :
    isHexLowerC (lowerChar c) = true := by
  simp only [isHexC, Bool.or_eq_true, inRange_iff, isDigitC] at h
  by_cases hu : isUpperC c
  · obtain ⟨h1, h2⟩ := isUpperC_toNat hu
    simp only [isHexLowerC, isDigitC, Bool.or_eq_true, inRange_iff,
      toNat_lowerChar_pos hu]
    omega
  · have := toNat_lowerChar_neg hu
    simp only [isHexLowerC, isDigitC, Bool.or_eq_true, inRange_iff, this]
    have hnu : ¬(65 ≤ c.toNat ∧ c.toNat ≤ 90) := by
      intro hc
      exact hu (by simp only [isUpperC, inRange_iff]; omega)
    omega

theorem objectIdCanon_hexLower {s : String} (h : isValidObjectIdStr s = true) :
    ∀ c ∈ (objectIdCanon s).toList, isHexLowerC c = true := by
  intro c hc
  rw [objectIdCanon] at hc
  by_cases h24 : s.length = 24
  · rw [if_pos (by simp [h24]), toList_lowerStr] at hc
    obtain ⟨b, hb, rfl⟩ := List.mem_map.mp hc
    apply isHexLowerC_lowerChar_of_isHexC
    simp only [isValidObjectIdStr, Bool.or_eq_true, Bool.and_eq_true,
      beq_iff_eq, List.all_eq_true] at h
    rcases h with ⟨-, hall⟩ | h12
    · exact hall b hb
    · omega
  · rw [if_neg (by simp [h24])] at hc
    have hc' : c ∈ s.toList.flatMap fun b =>
        [hexDigitChar (b.toNat % 256 / 16), hexDigitChar (b.toNat % 16)] := hc
    obtain ⟨b, -, hcb⟩ := List.mem_flatMap.mp hc'
    have d1 : b.toNat % 256 / 16 < 16 := by omega
    have d2 : b.toNat % 16 < 16 := by omega
    rcases List.mem_cons.mp hcb with rfl | hcb2
    · exact isHexLowerC_hexDigitChar d1
    · rcases List.mem_cons.mp hcb2 with rfl | hx
      · exact isHexLowerC_hexDigitChar d2
      · simp at hx

theorem lowerStr_eq_empty_iff {s : String} : lowerStr s = "" ↔ s = "" := by
  constructor
  · intro h
    have : (lowerStr s).toList = [] := by simp [h]
    rw [toList_lowerStr, List.map_eq_nil_iff] at this
    cases s
    simpa [String.toList] using congrArg String.mk this
  · rintro rfl; rfl

/-- Evaluation of the Booking save pipeline on an input whose email is the
normalization of a regex-valid raw email: the setters and the validator
pass, leaving the referential check and the unique-index check. -/
theorem bookingSave_eq (events : List EventRec) (bookings : List BookingRec)
    (newId eid : String) {email : String} (h2 : emailRegexTest email = true) :
    bookingSave events bookings ⟨newId, eid, lowerStr (trimStr email)⟩ =
      (if (events.find? (fun e => e.id == eid)).isNone then
        Except.error (msgEventMissing eid)
      else if (bookings.find? (fun x =>
          x.eventId == eid && x.email == lowerStr (trimStr email))).isSome then
        Except.error msgDupKey
      else Except.ok ⟨newId, eid, lowerStr (trimStr email)⟩) := by
  have hws := emailTest_noWs h2
  have htr : trimStr email = email := trimStr_eq_self hws
  have hem : lowerStr (trimStr (lowerStr (trimStr email))) = lowerStr (trimStr email) := by
    rw [htr, lowerTrim_collapse hws]
  have hne : lowerStr (trimStr email) ≠ "" := by
    rw [htr]
    exact fun hcon => emailTest_ne_empty h2 (lowerStr_eq_empty_iff.mp hcon)
  have hok : emailRegexTest (lowerStr (trimStr email)) = true := by
    rw [htr, emailTest_lower]
    exact h2
  simp only [bookingSave, hem, if_neg hne, hok, Bool.not_true, Bool.false_eq_true,
    if_false]

/-- Every branch of the `catch` block of `createBooking` is a failure
response. -/
theorem catchMap_success (msg : String) : (catchMap msg).success = false := by
  unfold catchMap
  repeat' split
  all_goals rfl

/-- C2: on every input, the four `createBooking` input checks decide the
result in the order eventId-present, email-present, email-format (on the
raw string), eventId-ObjectId-shape; the first failing check's message is
returned, later checks are irrelevant to the result, and the result is the
same for every store state and every concurrent write (no store access)
with no document inserted. -/
theorem createBooking_validation_order (store : BookingStore)
    (concurrent : List BookingRec) (newId eventId email : String) :
    (trimStr eventId = "" →
      createBooking store concurrent newId eventId email =
        (reject "Event ID is required", none)) ∧
    (trimStr eventId ≠ "" → trimStr email = "" →
      createBooking store concurrent newId eventId email =
        (reject "Email is required", none)) ∧
    (trimStr eventId ≠ "" → trimStr email ≠ "" → emailRegexTest email = false →
      createBooking store concurrent newId eventId email =
        (reject "Invalid email format", none)) ∧
    (trimStr eventId ≠ "" → trimStr email ≠ "" → emailRegexTest email = true →
      isValidObjectIdStr eventId = false →
      createBooking store concurrent newId eventId email =
        (reject "Invalid event ID format", none)) := by
  refine ⟨fun h1 => ?_, fun h1 h2 => ?_, fun h1 h2 h3 => ?_, fun h1 h2 h3 h4 => ?_⟩
  · simp [createBooking, h1]
  · simp [createBooking, h1, h2]
  · simp [createBooking, h1, h2, h3]
  · simp [createBooking, h1, h2, h3, h4]

/-- Witness for C2 at a concrete input failing the third check: a
well-shaped eventId with a malformed email is rejected with the
invalid-email-format message on the empty store. -/
theorem createBooking_validation_order_witness :
    createBooking ⟨[], []⟩ [] "b1" "507f1f77bcf86cd799439011" "not-an-email" =
      (reject "Invalid email format", none) :=
  (createBooking_validation_order ⟨[], []⟩ [] "b1" "507f1f77bcf86cd799439011"
    "not-an-email").2.2.1 (by decide) (by decide) (by decide)

/-- C10: the email-format check of `createBooking` runs on the raw input
string before any normalization — an email with leading or trailing
whitespace is rejected as malformed even when its trimmed form is valid —
and normalization (trim and lowercase) happens only afterwards, so a
successful call echoes the trimmed lowercased email in its `data`, not the
caller's raw input. -/
theorem createBooking_raw_email_check (store : BookingStore)
    (concurrent : List BookingRec) (newId eventId email : String) :
    (trimStr eventId ≠ "" → emailRegexTest (trimStr email) = true →
      email ≠ trimStr email →
      createBooking store concurrent newId eventId email =
        (reject "Invalid email format", none)) ∧
    ((createBooking store concurrent newId eventId email).1.success = true →
      (createBooking store concurrent newId eventId email).1.data =
        some (newId, objectIdCanon eventId, lowerStr (trimStr email))) := by
  constructor
  · intro h1 h2 h3
    have htne : trimStr email ≠ "" := emailTest_ne_empty h2
    have hraw : emailRegexTest email = false := by
      cases hr : emailRegexTest email
      · rfl
      · exact absurd (trimStr_eq_self (emailTest_noWs hr)).symm h3
    simp [createBooking, h1, htne, hraw]
  · intro hsucc
    by_cases h1 : trimStr eventId = ""
    · simp [createBooking, h1, reject] at hsucc
    by_cases h2 : trimStr email = ""
    · simp [createBooking, h1, h2, reject] at hsucc
    by_cases h3 : emailRegexTest email = true
    case neg =>
      rw [Bool.not_eq_true] at h3
      simp [createBooking, h1, h2, h3, reject] at hsucc
    by_cases h4 : isValidObjectIdStr eventId = true
    case neg =>
      rw [Bool.not_eq_true] at h4
      simp [createBooking, h1, h2, h3, h4, reject] at hsucc
    cases hf : store.bookings.find? (fun b =>
        b.eventId == objectIdCanon eventId &&
          b.email == lowerStr (trimStr email)) with
    | some b =>
      have heq : createBooking store concurrent newId eventId email =
          (reject "You have already booked this event", none) := by
        simp [createBooking, h1, h2, h3, h4, hf]
      rw [heq] at hsucc
      simp [reject] at hsucc
    | none =>
      cases hsave : bookingSave store.events (store.bookings ++ concurrent)
          { id := newId, eventId := objectIdCanon eventId,
            email := lowerStr (trimStr email) } with
      | error msg =>
        have heq : createBooking store concurrent newId eventId email =
            (catchMap msg, none) := by
          simp [createBooking, h1, h2, h3, h4, hf, hsave]
        rw [heq] at hsucc
        simp [catchMap_success] at hsucc
      | ok b =>
        have heq : createBooking store concurrent newId eventId email =
            ({ success := true, message := "Booking created successfully"
               data := some (b.id, b.eventId, b.email), error := none },
             some b) := by
          simp [createBooking, h1, h2, h3, h4, hf, hsave]
        rw [bookingSave_eq store.events (store.bookings ++ concurrent) newId
          (objectIdCanon eventId) h3] at hsave
        rw [heq]
        by_cases h5 : (store.events.find? fun e => e.id == objectIdCanon eventId).isNone
        · rw [if_pos h5] at hsave; exact absurd hsave (by simp)
        · rw [if_neg h5] at hsave
          by_cases h6 : ((store.bookings ++ concurrent).find? fun x =>
              x.eventId == objectIdCanon eventId &&
                x.email == lowerStr (trimStr email)).isSome
          · rw [if_pos h6] at hsave; exact absurd hsave (by simp)
          · rw [if_neg h6] at hsave
            injection hsave with hb
            rw [← hb]

/-- Witness for C10 at a concrete input: the email `" a@b.co"` (leading
space, valid once trimmed) is rejected with the invalid-email-format
message. -/
theorem createBooking_raw_email_check_witness :
    createBooking ⟨[], []⟩ [] "b1" "507f1f77bcf86cd799439011" " a@b.co" =
      (reject "Invalid email format", none) :=
  (createBooking_raw_email_check ⟨[], []⟩ [] "b1" "507f1f77bcf86cd799439011"
    " a@b.co").1 (by decide) (by decide) (by decide)

/-- The catch block maps the unique-index violation message to the
already-booked rejection. -/
theorem catchMap_dupKey :
    catchMap msgDupKey = reject "You have already booked this event" := rfl

/-- The catch block maps the dangling-reference message of the pre-save
hook to the event-not-found rejection, for every canonical ObjectId
(whose lowercase-hex alphabet cannot contain the letter `u` of
`duplicate key`, so the first substring test cannot fire). -/
theorem catchMap_eventMissing {eventId : String}
    (h3 : isValidObjectIdStr eventId = true) :
    catchMap (msgEventMissing (objectIdCanon eventId)) =
      reject "Event not found" := by
  have hnodup : hasSubStr "duplicate key" (msgEventMissing (objectIdCanon eventId)) =
      false := by
    cases hd : hasSubStr "duplicate key" (msgEventMissing (objectIdCanon eventId))
    · rfl
    · have hu : ('u' : Char) ∈ ("duplicate key" : String).toList := by decide
      have hmem := hasSubStr_mem hd hu
      have hsplit : (msgEventMissing (objectIdCanon eventId)).toList =
          ("Event with ID " : String).toList ++ (objectIdCanon eventId).toList ++
            (" does not exist" : String).toList := by
        simp [msgEventMissing, toList_append]
      rw [hsplit] at hmem
      rcases List.mem_append.mp hmem with hmem | hmem3
      · rcases List.mem_append.mp hmem with hmem1 | hmem2
        · exact absurd hmem1 (by decide)
        · have := objectIdCanon_hexLower h3 _ hmem2
          exact absurd this (by decide)
      · exact absurd hmem3 (by decide)
  have hyes : hasSubStr "does not exist" (msgEventMissing (objectIdCanon eventId)) =
      true := by
    rw [hasSubStr, hasSubL_iff]
    refine ⟨("Event with ID " ++ objectIdCanon eventId).toList ++ [' '], [], ?_⟩
    have h1 : (msgEventMissing (objectIdCanon eventId)).toList =
        ("Event with ID " ++ objectIdCanon eventId).toList ++
          (" does not exist" : String).toList := by
      simp [msgEventMissing, toList_append]
    rw [h1]
    have h2 : (" does not exist" : String).toList =
        [' '] ++ ("does not exist" : String).toList := by decide
    rw [h2]
    simp
  rw [catchMap, if_neg (by simp [hnodup]), if_pos hyes]

/-- C1: duplicate prevention in `createBooking`.  For a valid pair —
well-shaped non-blank eventId referencing a stored Event, regex-valid
email, pair not yet booked — (a) the call returns the Created result and
inserts the normalized document; (b) repeating the identical call on the
resulting store is rejected with the already-booked message; (c) the same
eventId with a different valid (normalized-distinct, not yet booked) email
succeeds on the resulting store; (d) when the duplicate `findOne` misses
but a concurrent insert makes the store's unique `(eventId, email)` index
reject the write, the duplicate-key failure is mapped back to the same
already-booked rejection, not to a generic failure. -/
theorem createBooking_duplicate_prevention (store : BookingStore)
    (newId newId2 newId3 cid eventId email email2 : String)
    (h1 : trimStr eventId ≠ "")
    (h2 : emailRegexTest email = true)
    (h3 : isValidObjectIdStr eventId = true)
    (hev : (store.events.find? fun e => e.id == objectIdCanon eventId).isSome = true)
    (hfresh : (store.bookings.find? fun b =>
        b.eventId == objectIdCanon eventId &&
          b.email == lowerStr (trimStr email)).isSome = false)
    (h2b : emailRegexTest email2 = true)
    (hdiff : lowerStr (trimStr email2) ≠ lowerStr (trimStr email))
    (hfresh2 : (store.bookings.find? fun b =>
        b.eventId == objectIdCanon eventId &&
          b.email == lowerStr (trimStr email2)).isSome = false) :
    createBooking store [] newId eventId email =
      ({ success := true, message := "Booking created successfully"
         data := some (newId, objectIdCanon eventId, lowerStr (trimStr email))
         error := none },
       some ⟨newId, objectIdCanon eventId, lowerStr (trimStr email)⟩) ∧
    createBooking
        { store with bookings :=
            store.bookings ++
              [⟨newId, objectIdCanon eventId, lowerStr (trimStr email)⟩] }
        [] newId2 eventId email =
      (reject "You have already booked this event", none) ∧
    (createBooking
        { store with bookings :=
            store.bookings ++
              [⟨newId, objectIdCanon eventId, lowerStr (trimStr email)⟩] }
        [] newId3 eventId email2).1.success = true ∧
    createBooking store
        [⟨cid, objectIdCanon eventId, lowerStr (trimStr email)⟩]
        newId eventId email =
      (reject "You have already booked this event", none) := by
  have htne : trimStr email ≠ "" := by
    rw [trimStr_eq_self (emailTest_noWs h2)]
    exact emailTest_ne_empty h2
  have htne2 : trimStr email2 ≠ "" := by
    rw [trimStr_eq_self (emailTest_noWs h2b)]
    exact emailTest_ne_empty h2b
  have hevN : (store.events.find? fun e => e.id == objectIdCanon eventId).isNone
      = false := by
    obtain ⟨v, hv⟩ := Option.isSome_iff_exists.mp hev
    simp [hv]
  have hfnone : (store.bookings.find? fun b =>
      b.eventId == objectIdCanon eventId &&
        b.email == lowerStr (trimStr email)) = none := by
    cases hc : store.bookings.find? fun b =>
        b.eventId == objectIdCanon eventId &&
          b.email == lowerStr (trimStr email)
    · rfl
    · rw [hc] at hfresh; simp at hfresh
  have hfnone2 : (store.bookings.find? fun b =>
      b.eventId == objectIdCanon eventId &&
        b.email == lowerStr (trimStr email2)) = none := by
    cases hc : store.bookings.find? fun b =>
        b.eventId == objectIdCanon eventId &&
          b.email == lowerStr (trimStr email2)
    · rfl
    · rw [hc] at hfresh2; simp at hfresh2
  refine ⟨?_, ?_, ?_, ?_⟩
  · have hsave := bookingSave_eq store.events (store.bookings ++ []) newId
      (objectIdCanon eventId) h2
    rw [List.append_nil, if_neg (by simp [hevN]), if_neg (by simp [hfresh])]
      at hsave
    simp [createBooking, h1, htne, h2, h3, hfresh, hsave]
  · simp [createBooking, h1, htne, h2, h3, List.find?_append, hfnone, List.find?]
  · have hne : (lowerStr (trimStr email) == lowerStr (trimStr email2)) = false :=
      beq_eq_false_iff_ne.mpr (Ne.symm hdiff)
    have hfind2 : ({ store with bookings :=
        store.bookings ++
          [⟨newId, objectIdCanon eventId, lowerStr (trimStr email)⟩]
        : BookingStore}.bookings.find? fun b =>
          b.eventId == objectIdCanon eventId &&
            b.email == lowerStr (trimStr email2)) = none := by
      simp [List.find?_append, hfnone2, List.find?, hne]
    have hsave := bookingSave_eq store.events
      ((store.bookings ++
          [⟨newId, objectIdCanon eventId, lowerStr (trimStr email)⟩]) ++ [])
      newId3 (objectIdCanon eventId) h2b
    rw [List.append_nil, if_neg (by simp [hevN]),
      if_neg (by simp [List.find?_append, hfnone2, List.find?, hne])] at hsave
    simp [createBooking, h1, htne2, h2b, h3, hfind2, hsave]
  · have hsave := bookingSave_eq store.events
      (store.bookings ++ [⟨cid, objectIdCanon eventId, lowerStr (trimStr email)⟩])
      newId (objectIdCanon eventId) h2
    rw [if_neg (by simp [hevN]),
      if_pos (by simp [List.find?_append, hfnone, List.find?])] at hsave
    simp [createBooking, h1, htne, h2, h3, hfresh, hsave, catchMap_dupKey]

/-- C3: a well-formed eventId that references no stored Event is rejected
by the Booking pre-save referential check before the write commits: the
action returns the event-not-found rejection and no Booking document is
inserted. -/
theorem createBooking_event_not_found (store : BookingStore)
    (newId eventId email : String)
    (h1 : trimStr eventId ≠ "")
    (h2 : emailRegexTest email = true)
    (h3 : isValidObjectIdStr eventId = true)
    (hev : (store.events.find? fun e => e.id == objectIdCanon eventId) = none)
    (hfresh : (store.bookings.find? fun b =>
        b.eventId == objectIdCanon eventId &&
          b.email == lowerStr (trimStr email)).isSome = false) :
    createBooking store [] newId eventId email = (reject "Event not found", none) := by
  have htne : trimStr email ≠ "" := by
    rw [trimStr_eq_self (emailTest_noWs h2)]
    exact emailTest_ne_empty h2
  have hsave := bookingSave_eq store.events (store.bookings ++ []) newId
    (objectIdCanon eventId) h2
  rw [List.append_nil, if_pos (by simp [hev])] at hsave
  simp [createBooking, h1, htne, h2, h3, hfresh, hsave, catchMap_eventMissing h3]

/-- Witness for C1 at a concrete store holding one Event: the first
booking call succeeds, inserting the normalized document. -/
theorem createBooking_duplicate_prevention_witness :
    createBooking
        ⟨[⟨"507f1f77bcf86cd799439011", "T", "my-event", ["ai"], "2024-03-05",
          "10:00", 1⟩], []⟩
        [] "b1" "507f1f77bcf86cd799439011" "Alice@Example.com" =
      ({ success := true, message := "Booking created successfully"
         data := some ("b1", "507f1f77bcf86cd799439011", "alice@example.com")
         error := none },
       some ⟨"b1", "507f1f77bcf86cd799439011", "alice@example.com"⟩) :=
  (createBooking_duplicate_prevention
    ⟨[⟨"507f1f77bcf86cd799439011", "T", "my-event", ["ai"], "2024-03-05",
      "10:00", 1⟩], []⟩
    "b1" "b2" "b3" "c1" "507f1f77bcf86cd799439011" "Alice@Example.com"
    "bob@example.com" (by decide) (by decide) (by decide) (by decide)
    (by decide) (by decide) (by decide) (by decide)).1

/-- Witness for C3 on the empty Event collection: a well-shaped unknown
eventId yields the event-not-found rejection with nothing inserted. -/
theorem createBooking_event_not_found_witness :
    createBooking ⟨[], []⟩ [] "b1" "507f1f77bcf86cd799439011" "a@b.co" =
      (reject "Event not found", none) :=
  createBooking_event_not_found ⟨[], []⟩ "b1" "507f1f77bcf86cd799439011"
    "a@b.co" (by decide) (by decide) (by decide) (by decide) (by decide)

/-- C6: the GET route returns the stored Event with status 200 when the
slug is well-formed and matches; rejects a malformed slug with status 400
and no event payload, identically for every store state (the store is
never consulted); and returns status 404 for a well-formed slug matching
no stored Event. -/
theorem getBySlug_spec (slug : String) (events : List EventRec) :
    (slugFormatOk slug = false →
      (getEventBySlug (some slug) events).status = 400 ∧
      (getEventBySlug (some slug) events).event = none) ∧
    (∀ e, slugFormatOk slug = true →
      events.find? (fun x => x.slug == slug) = some e →
      getEventBySlug (some slug) events =
        { status := 200, message := "Event fetched successfully"
          event := some e }) ∧
    (slugFormatOk slug = true →
      events.find? (fun x => x.slug == slug) = none →
      getEventBySlug (some slug) events =
        { status := 404
          message := "Event with slug \x27" ++ slug ++ "\x27 not found"
          event := none }) := by
  have hemp : slugFormatOk "" = false := by decide
  refine ⟨fun h1 => ?_, fun e h1 h2 => ?_, fun h1 h2 => ?_⟩
  · by_cases he : slug = ""
    · subst he; exact ⟨rfl, rfl⟩
    · simp [getEventBySlug, he, h1]
  · have he : slug ≠ "" := fun hc => by rw [hc] at h1; simp [hemp] at h1
    simp [getEventBySlug, he, h1, h2]
  · have he : slug ≠ "" := fun hc => by rw [hc] at h1; simp [hemp] at h1
    simp [getEventBySlug, he, h1, h2]

/-- Witness for C6: the matching slug on a one-Event store returns that
event with status 200. -/
theorem getBySlug_spec_witness :
    getEventBySlug (some "my-event")
        [⟨"aa", "T", "my-event", ["ai"], "2024-03-05", "10:00", 1⟩] =
      { status := 200, message := "Event fetched successfully"
        event := some ⟨"aa", "T", "my-event", ["ai"], "2024-03-05", "10:00", 1⟩ } :=
  (getBySlug_spec "my-event"
    [⟨"aa", "T", "my-event", ["ai"], "2024-03-05", "10:00", 1⟩]).2.1
    ⟨"aa", "T", "my-event", ["ai"], "2024-03-05", "10:00", 1⟩
    (by decide) (by decide)

/-- C8: `getSimilarEventsBySlug` never fails its caller: when the slug
matches no Event, when the source Event's tag array is empty, and when the
store itself fails (connection or query error), the call returns the empty
list instead of propagating the error. -/
theorem getSimilar_graceful_empty (store : SimilarStore) (slug : String)
    (limit : Nat) :
    ((store.events.find? fun e => e.slug == slug) = none →
      getSimilarEventsBySlug store slug limit = []) ∧
    (∀ ev, (store.events.find? fun e => e.slug == slug) = some ev →
      ev.tags = [] → getSimilarEventsBySlug store slug limit = []) ∧
    (store.fail = true → getSimilarEventsBySlug store slug limit = []) := by
  refine ⟨fun h1 => ?_, fun ev h1 h2 => ?_, fun h1 => ?_⟩
  · by_cases hts : trimStr slug = ""
    · simp [getSimilarEventsBySlug, getSimilarBody, hts]
    · cases hfail : store.fail
      · simp [getSimilarEventsBySlug, getSimilarBody, hts, hfail, h1]
      · simp [getSimilarEventsBySlug, getSimilarBody, hts, hfail]
  · by_cases hts : trimStr slug = ""
    · simp [getSimilarEventsBySlug, getSimilarBody, hts]
    · cases hfail : store.fail
      · simp [getSimilarEventsBySlug, getSimilarBody, hts, hfail, h1, h2]
      · simp [getSimilarEventsBySlug, getSimilarBody, hts, hfail]
  · by_cases hts : trimStr slug = ""
    · simp [getSimilarEventsBySlug, getSimilarBody, hts]
    · simp [getSimilarEventsBySlug, getSimilarBody, hts, h1]

/-- Witness for C8 on a failing store: the call still returns the empty
list. -/
theorem getSimilar_graceful_empty_witness :
    getSimilarEventsBySlug ⟨[⟨"aa", "T", "my-event", ["ai"], "2024-03-05",
      "10:00", 1⟩], true⟩ "my-event" 5 = [] :=
  (getSimilar_graceful_empty ⟨[⟨"aa", "T", "my-event", ["ai"], "2024-03-05",
    "10:00", 1⟩], true⟩ "my-event" 5).2.2 rfl

/-- C9: saving an Event with date `"2024-03-05T10:00:00Z"` stores the
calendar-parsed, ISO-date-only value `"2024-03-05"`, and every date string
the platform date parser cannot parse makes the save fail with the
invalid-date-format error. -/
theorem eventPreSave_date_normalization (d : EventDoc) (m : ModFlags) :
    (d.date = "2024-03-05T10:00:00Z" → m = ⟨false, true, false⟩ →
      d.agenda ≠ [] → d.tags ≠ [] →
      eventPreSave d m = .ok { d with date := "2024-03-05" }) ∧
    (m.date = true → jsParseDate d.date = none →
      eventPreSave d m = .error msgInvalidDate) := by
  constructor
  · intro h1 h2 h3 h4
    subst h2
    have hparse : jsParseDate "2024-03-05T10:00:00Z" = some (2024, 3, 5) := by
      decide
    have hiso : isoDatePart (2024, 3, 5) = "2024-03-05" := by decide
    simp [eventPreSave, h1, hparse, hiso, h3, h4]
  · intro h1 h2
    cases ht : m.title <;> simp [eventPreSave, h1, h2, ht]

/-- Witness for C9 at a concrete document: the Z-marked date-time is
truncated to its date part on save, and the unparseable string `"hello"`
is rejected. -/
theorem eventPreSave_date_normalization_witness :
    eventPreSave ⟨"t", "s", "2024-03-05T10:00:00Z", "10:00", ["a"], ["x"]⟩
        ⟨false, true, false⟩ =
      .ok ⟨"t", "s", "2024-03-05", "10:00", ["a"], ["x"]⟩ ∧
    eventPreSave ⟨"t", "s", "hello", "10:00", ["a"], ["x"]⟩
        ⟨false, true, false⟩ = .error msgInvalidDate :=
  ⟨(eventPreSave_date_normalization
      ⟨"t", "s", "2024-03-05T10:00:00Z", "10:00", ["a"], ["x"]⟩
      ⟨false, true, false⟩).1 rfl rfl (by decide) (by decide),
   (eventPreSave_date_normalization
      ⟨"t", "s", "hello", "10:00", ["a"], ["x"]⟩
      ⟨false, true, false⟩).2 rfl (by decide)⟩

theorem isDigitC_iff {c : Char} : isDigitC c = true ↔ 48 ≤ c.toNat ∧ c.toNat ≤ 57 := by
  simp [isDigitC, inRange]

theorem isColonC_iff {c : Char} : isColonC c = true ↔ c.toNat = 58 := by
  simp [isColonC]

/-- Counterexample to C5 as stated: the time regex of the pre-save hook
also accepts the single-digit-hour string `"9:30"`, which is not of the
two-digit `HH:MM` shape, and the hook accepts a document carrying it. -/
theorem timeRegex_single_digit_counterexample :
    timeRegexTest "9:30" = true ∧ specTwoDigitHHMM "9:30" = false ∧
    eventPreSave ⟨"t", "s", "2024-03-05", "9:30", ["a"], ["x"]⟩
        ⟨false, false, true⟩ =
      .ok ⟨"t", "s", "2024-03-05", "9:30", ["a"], ["x"]⟩ := by
  refine ⟨by decide, by decide, rfl⟩

/-- C5 (amended): for a document whose time field is modified, the
pre-save hook accepts exactly the strings matching
`([0-1]?[0-9]|2[0-3]):[0-5][0-9]` — hour written with one or two digits
and value at most 23, minutes two digits at most 59 — and rejects every
other string with the invalid-time-format error; the hour may be a single
digit, so the accepted set strictly contains the two-digit `HH:MM`
shapes. -/
theorem eventPreSave_time_validation (d : EventDoc) (s : String)
    (hagenda : d.agenda ≠ []) (htags : d.tags ≠ []) :
    (timeRegexTest d.time = true →
      eventPreSave d ⟨false, false, true⟩ = .ok d) ∧
    (timeRegexTest d.time = false →
      eventPreSave d ⟨false, false, true⟩ = .error msgInvalidTime) ∧
    (timeRegexTest s = true ↔
      ∃ h mi, parseTimeHM s = some (h, mi) ∧ h ≤ 23 ∧ mi ≤ 59) := by
  refine ⟨fun h1 => ?_, fun h1 => ?_, ?_⟩
  · simp [eventPreSave, h1, hagenda, htags]
  · simp [eventPreSave, h1]
  · rcases hl : s.data with - | ⟨a, - | ⟨b, - | ⟨c, - | ⟨e, - | ⟨f, - | ⟨g, l6⟩⟩⟩⟩⟩⟩
    · simp [timeRegexTest, parseTimeHM, hl]
    · simp [timeRegexTest, parseTimeHM, hl]
    · simp [timeRegexTest, parseTimeHM, hl]
    · simp [timeRegexTest, parseTimeHM, hl]
    · -- length four: single-digit hour
      have hl2 : s.toList = [a, b, c, e] := hl
      simp only [timeRegexTest, parseTimeHM, hl, hl2]
      constructor
      · intro hcond
        simp only [Bool.and_eq_true, isDigitC_iff, isColonC_iff, inRange_iff]
          at hcond
        obtain ⟨⟨⟨ha, hb⟩, hc⟩, he⟩ := hcond
        refine ⟨digitVal a, 10 * digitVal c + digitVal e, ?_, ?_, ?_⟩
        · rw [if_pos (by
            simp only [Bool.and_eq_true, isDigitC_iff, isColonC_iff]
            omega)]
        · simp only [digitVal]; omega
        · simp only [digitVal]; omega
      · rintro ⟨h, mi, heq, hh, hmi⟩
        by_cases hcond : (isColonC b && isDigitC a && isDigitC c && isDigitC e)
            = true
        · rw [if_pos hcond] at heq
          simp only [Option.some.injEq, Prod.mk.injEq] at heq
          obtain ⟨rfl, rfl⟩ := heq
          simp only [Bool.and_eq_true, isDigitC_iff, isColonC_iff] at hcond
          simp only [Bool.and_eq_true, isDigitC_iff, isColonC_iff, inRange_iff,
            digitVal] at hmi ⊢
          omega
        · rw [if_neg hcond] at heq
          exact absurd heq (by simp)
    · -- length five: two-digit hour
      have hl2 : s.toList = [a, b, c, e, f] := hl
      simp only [timeRegexTest, parseTimeHM, hl, hl2]
      constructor
      · intro hcond
        simp only [Bool.and_eq_true, Bool.or_eq_true, isDigitC_iff, isColonC_iff,
          inRange_iff, beq_iff_eq] at hcond
        obtain ⟨⟨⟨hab, hc⟩, he⟩, hf⟩ := hcond
        refine ⟨10 * digitVal a + digitVal b, 10 * digitVal e + digitVal f, ?_, ?_, ?_⟩
        · rw [if_pos (by
            simp only [Bool.and_eq_true, isDigitC_iff, isColonC_iff]
            omega)]
        · simp only [digitVal]; omega
        · simp only [digitVal]; omega
      · rintro ⟨h, mi, heq, hh, hmi⟩
        by_cases hcond : (isColonC c && isDigitC a && isDigitC b && isDigitC e &&
            isDigitC f) = true
        · rw [if_pos hcond] at heq
          simp only [Option.some.injEq, Prod.mk.injEq] at heq
          obtain ⟨rfl, rfl⟩ := heq
          simp only [Bool.and_eq_true, isDigitC_iff, isColonC_iff] at hcond
          simp only [Bool.and_eq_true, Bool.or_eq_true, isDigitC_iff, isColonC_iff,
            inRange_iff, beq_iff_eq, digitVal] at hh hmi ⊢
          omega
        · rw [if_neg hcond] at heq
          exact absurd heq (by simp)
    · simp [timeRegexTest, parseTimeHM, hl]

/-- Witness for C5 (amended) at a concrete document: a valid `"23:59"` is
accepted unchanged. -/
theorem eventPreSave_time_validation_witness :
    eventPreSave ⟨"t", "s", "2024-03-05", "23:59", ["a"], ["x"]⟩
        ⟨false, false, true⟩ =
      .ok ⟨"t", "s", "2024-03-05", "23:59", ["a"], ["x"]⟩ :=
  (eventPreSave_time_validation ⟨"t", "s", "2024-03-05", "23:59", ["a"], ["x"]⟩
    "23:59" (by decide) (by decide)).1 (by decide)

/-- C7: for a source Event resolved by slug with a non-empty tag set on a
healthy store, `getSimilarEventsBySlug` returns exactly the Events other
than the source whose tag arrays meet the source's (any shared tag
suffices): every returned Event is such a match, the result is ordered
most-recently-created first, its length is the number of matches capped at
`limit`, and it is the `limit`-prefix of a most-recent-first ordering of
the full match set. -/
theorem getSimilar_matching (store : SimilarStore) (slug : String) (limit : Nat)
    (ev : EventRec) (hfail : store.fail = false) (hslug : trimStr slug ≠ "")
    (hfind : (store.events.find? fun e => e.slug == slug) = some ev)
    (htags : ev.tags ≠ []) :
    (∀ e ∈ getSimilarEventsBySlug store slug limit,
      e ∈ store.events ∧ e.id ≠ ev.id ∧ ∃ t ∈ e.tags, t ∈ ev.tags) ∧
    List.Pairwise (fun a b => b.createdAt ≤ a.createdAt)
      (getSimilarEventsBySlug store slug limit) ∧
    (getSimilarEventsBySlug store slug limit).length =
      min limit (similarFilter store.events ev).length ∧
    ∃ l, l.Perm (similarFilter store.events ev) ∧
      List.Pairwise (fun a b => b.createdAt ≤ a.createdAt) l ∧
      getSimilarEventsBySlug store slug limit = l.take limit := by
  have hres : getSimilarEventsBySlug store slug limit =
      ((similarFilter store.events ev).mergeSort createdDesc).take limit := by
    simp [getSimilarEventsBySlug, getSimilarBody, hslug, hfail, hfind, htags]
  have htrans : ∀ a b c : EventRec, createdDesc a b = true →
      createdDesc b c = true → createdDesc a c = true := by
    intro a b c hab hbc
    simp only [createdDesc, decide_eq_true_eq] at hab hbc ⊢
    omega
  have htotal : ∀ a b : EventRec, (createdDesc a b || createdDesc b a) = true := by
    intro a b
    simp only [createdDesc, Bool.or_eq_true, decide_eq_true_eq]
    omega
  have hsorted := List.sorted_mergeSort htrans htotal (similarFilter store.events ev)
  have hsorted' : List.Pairwise (fun a b => b.createdAt ≤ a.createdAt)
      ((similarFilter store.events ev).mergeSort createdDesc) :=
    hsorted.imp fun hab => by simpa [createdDesc] using hab
  have hperm := List.mergeSort_perm (similarFilter store.events ev) createdDesc
  refine ⟨?_, ?_, ?_,
    ⟨(similarFilter store.events ev).mergeSort createdDesc, hperm, hsorted', hres⟩⟩
  · intro e he
    rw [hres] at he
    have hmem : e ∈ (similarFilter store.events ev).mergeSort createdDesc :=
      List.Sublist.mem he (List.take_sublist _ _)
    have hfilter : e ∈ similarFilter store.events ev := hperm.mem_iff.mp hmem
    rw [similarFilter, List.mem_filter] at hfilter
    obtain ⟨hmem2, hcond⟩ := hfilter
    simp only [Bool.and_eq_true, Bool.not_eq_true', beq_eq_false_iff_ne,
      List.any_eq_true] at hcond
    obtain ⟨hne, t, ht, hcont⟩ := hcond
    exact ⟨hmem2, hne, t, ht, by simpa using hcont⟩
  · rw [hres]
    exact hsorted'.take
  · rw [hres, List.length_take, hperm.length_eq]

/-- Witness for C7 at a concrete store: source `my-event` carries tags
`ai` and `infra`; of the three other Events, the two sharing a tag are
returned and capped at the limit. -/
theorem getSimilar_matching_witness :
    (getSimilarEventsBySlug
      ⟨[⟨"aa", "A", "my-event", ["ai", "infra"], "2024-03-05", "10:00", 10⟩,
        ⟨"bb", "B", "e2", ["ai"], "2024-03-06", "10:00", 20⟩,
        ⟨"cc", "C", "e3", ["infra", "x"], "2024-03-07", "10:00", 30⟩,
        ⟨"dd", "D", "e4", ["other"], "2024-03-08", "10:00", 40⟩], false⟩
      "my-event" 5).length =
      min 5 (similarFilter
        [⟨"aa", "A", "my-event", ["ai", "infra"], "2024-03-05", "10:00", 10⟩,
         ⟨"bb", "B", "e2", ["ai"], "2024-03-06", "10:00", 20⟩,
         ⟨"cc", "C", "e3", ["infra", "x"], "2024-03-07", "10:00", 30⟩,
         ⟨"dd", "D", "e4", ["other"], "2024-03-08", "10:00", 40⟩]
        ⟨"aa", "A", "my-event", ["ai", "infra"], "2024-03-05", "10:00", 10⟩).length :=
  (getSimilar_matching
    ⟨[⟨"aa", "A", "my-event", ["ai", "infra"], "2024-03-05", "10:00", 10⟩,
      ⟨"bb", "B", "e2", ["ai"], "2024-03-06", "10:00", 20⟩,
      ⟨"cc", "C", "e3", ["infra", "x"], "2024-03-07", "10:00", 30⟩,
      ⟨"dd", "D", "e4", ["other"], "2024-03-08", "10:00", 40⟩], false⟩
    "my-event" 5
    ⟨"aa", "A", "my-event", ["ai", "infra"], "2024-03-05", "10:00", 10⟩
    rfl (by decide) (by decide) (by decide)).2.2.1

/-! ### Lemmas on run-collapsing, for the slug pipeline -/

theorem mem_collapseRunsAux {p : Char → Bool} {r : Char} {l : List Char} :
    ∀ {s : Bool} {c : Char}, c ∈ collapseRunsAux p r s l →
      c = r ∨ (c ∈ l ∧ p c = false) := by
  induction l with
  | nil => intro s c hc; simp [collapseRunsAux] at hc
  | cons a t ih =>
    intro s c hc
    by_cases hp : p a
    · cases s with
      | false =>
        rw [show collapseRunsAux p r false (a :: t) =
            r :: collapseRunsAux p r true t from by simp [collapseRunsAux, hp]]
          at hc
        rcases List.mem_cons.mp hc with rfl | hc2
        · exact Or.inl rfl
        · rcases ih hc2 with h | ⟨hm, hpc⟩
          · exact Or.inl h
          · exact Or.inr ⟨by simp [hm], hpc⟩
      | true =>
        rw [show collapseRunsAux p r true (a :: t) =
            collapseRunsAux p r true t from by simp [collapseRunsAux, hp]] at hc
        rcases ih hc with h | ⟨hm, hpc⟩
        · exact Or.inl h
        · exact Or.inr ⟨by simp [hm], hpc⟩
    · rw [show collapseRunsAux p r s (a :: t) =
          a :: collapseRunsAux p r false t from by simp [collapseRunsAux, hp]]
        at hc
      rcases List.mem_cons.mp hc with rfl | hc2
      · exact Or.inr ⟨by simp, by simpa using hp⟩
      · rcases ih hc2 with h | ⟨hm, hpc⟩
        · exact Or.inl h
        · exact Or.inr ⟨by simp [hm], hpc⟩

theorem head_collapseRunsAux_true {p : Char → Bool} {r : Char} {l : List Char} :
    ∀ {x : Char} {xs : List Char},
      collapseRunsAux p r true l = x :: xs → p x = false := by
  induction l with
  | nil => intro x xs h; simp [collapseRunsAux] at h
  | cons a t ih =>
    intro x xs h
    by_cases hp : p a
    · rw [show collapseRunsAux p r true (a :: t) =
          collapseRunsAux p r true t from by simp [collapseRunsAux, hp]] at h
      exact ih h
    · rw [show collapseRunsAux p r true (a :: t) =
          a :: collapseRunsAux p r false t from by simp [collapseRunsAux, hp]] at h
      injection h with h1 h2
      subst h1
      simpa using hp

theorem chain_collapseRunsAux {p : Char → Bool} {r : Char} (l : List Char) :
    ∀ s, List.Chain' (fun a b => ¬(p a = true ∧ p b = true))
      (collapseRunsAux p r s l) := by
  induction l with
  | nil => intro s; simp [collapseRunsAux]
  | cons a t ih =>
    intro s
    by_cases hp : p a
    · cases s with
      | true =>
        rw [show collapseRunsAux p r true (a :: t) =
            collapseRunsAux p r true t from by simp [collapseRunsAux, hp]]
        exact ih true
      | false =>
        rw [show collapseRunsAux p r false (a :: t) =
            r :: collapseRunsAux p r true t from by simp [collapseRunsAux, hp]]
        rw [List.chain'_cons']
        refine ⟨?_, ih true⟩
        intro y hy
        cases hh : collapseRunsAux p r true t with
        | nil => rw [hh] at hy; simp at hy
        | cons x xs =>
          rw [hh] at hy
          simp only [List.head?_cons, Option.mem_def, Option.some.injEq] at hy
          subst hy
          rintro ⟨-, hpy⟩
          rw [head_collapseRunsAux_true hh] at hpy
          exact absurd hpy (by simp)
    · rw [show collapseRunsAux p r s (a :: t) =
          a :: collapseRunsAux p r false t from by simp [collapseRunsAux, hp]]
      rw [List.chain'_cons']
      refine ⟨?_, ih false⟩
      intro y hy
      rintro ⟨hpa, -⟩
      exact absurd hpa (by simpa using hp)

theorem mem_of_mem_dropWhile {p : Char → Bool} {l : List Char} {c : Char}
    (h : c ∈ l.dropWhile p) : c ∈ l := by
  induction l with
  | nil => simpa using h
  | cons a t ih =>
    rw [List.dropWhile_cons] at h
    by_cases hp : p a
    · rw [if_pos hp] at h; simp [ih h]
    · rw [if_neg hp] at h; exact h

theorem chain_dropWhile {R : Char → Char → Prop} {p : Char → Bool}
    {l : List Char} (h : List.Chain' R l) : List.Chain' R (l.dropWhile p) := by
  induction l with
  | nil => simpa using h
  | cons a t ih =>
    rw [List.dropWhile_cons]
    by_cases hp : p a
    · rw [if_pos hp]; exact ih h.tail
    · rw [if_neg hp]; exact h

theorem dropTrail_head_eq {p : Char → Bool} {l : List Char} {y : Char}
    {ys : List Char} (h : dropTrail p l = y :: ys) : ∃ t0, l = y :: t0 := by
  cases l with
  | nil => simp [dropTrail] at h
  | cons a t =>
    rw [dropTrail_cons] at h
    by_cases hc : (dropTrail p t).isEmpty && p a
    · rw [if_pos hc] at h; cases h
    · rw [if_neg hc] at h
      injection h with h1 h2
      exact ⟨t, by rw [h1]⟩

theorem chain_dropTrail {R : Char → Char → Prop} {p : Char → Bool}
    {l : List Char} (h : List.Chain' R l) : List.Chain' R (dropTrail p l) := by
  induction l with
  | nil => simpa [dropTrail] using h
  | cons a t ih =>
    rw [dropTrail_cons]
    by_cases hc : (dropTrail p t).isEmpty && p a
    · rw [if_pos hc]; exact List.chain'_nil
    · rw [if_neg hc]
      rw [List.chain'_cons']
      refine ⟨?_, ih h.tail⟩
      intro y hy
      cases hh : dropTrail p t with
      | nil => rw [hh] at hy; simp at hy
      | cons x xs =>
        rw [hh] at hy
        simp only [List.head?_cons, Option.mem_def, Option.some.injEq] at hy
        subst hy
        obtain ⟨t0, ht0⟩ := dropTrail_head_eq hh
        rw [ht0] at h
        exact (List.chain'_cons.mp h).1

/-- Counterexample to C4 as stated: the character-deleting regex of the
slug derivation keeps `\w`, which contains the underscore, so the title
`"a_b"` derives the slug `"a_b"`, which is not made of lowercase
alphanumerics and hyphens only; the pre-save hook stores that slug. -/
theorem slugify_underscore_counterexample :
    slugify "a_b" = "a_b" ∧
    ((slugify "a_b").toList.all specSlugChar) = false ∧
    eventPreSave ⟨"a_b", "", "2024-03-05", "10:00", ["a"], ["x"]⟩
        ⟨true, false, false⟩ =
      .ok ⟨"a_b", "a_b", "2024-03-05", "10:00", ["a"], ["x"]⟩ :=
  ⟨by decide, by decide, rfl⟩

/-- C4 (amended): slug derivation is a deterministic function of the
title, and for every title the derived slug contains only lowercase
alphanumerics, underscores and hyphens, with no leading hyphen, no
trailing hyphen, and no two adjacent hyphens (underscores survive because
the deletion step keeps the `\w` class). -/
theorem slugify_amended (t : String) :
    slugify t = slugify t ∧
    (∀ c ∈ (slugify t).toList, slugOutC c = true) ∧
    (slugify t).toList.head? ≠ some '-' ∧
    (slugify t).toList.getLast? ≠ some '-' ∧
    List.Chain' (fun a b => ¬(a = '-' ∧ b = '-')) (slugify t).toList := by
  have hres : (slugify t).toList =
      dropTrail isDashC
        ((collapseRunsAux isDashC '-' false
          (collapseRunsAux jsWsC '-' false
            ((trimStr (lowerStr t)).toList.filter fun c =>
              isWordC c || jsWsC c || isDashC c))).dropWhile isDashC) := rfl
  have hl1 : ∀ c ∈ (trimStr (lowerStr t)).toList, isUpperC c = false := by
    intro c hc
    rw [toList_trimStr, trimList] at hc
    have hc2 : c ∈ (lowerStr t).toList :=
      mem_of_mem_dropWhile (mem_dropTrail hc)
    rw [toList_lowerStr] at hc2
    obtain ⟨b, -, rfl⟩ := List.mem_map.mp hc2
    exact isUpperC_lowerChar b
  refine ⟨rfl, ?_, ?_, ?_, ?_⟩
  · intro c hc
    rw [hres] at hc
    have hc4 : c ∈ collapseRunsAux isDashC '-' false
        (collapseRunsAux jsWsC '-' false
          ((trimStr (lowerStr t)).toList.filter fun c =>
            isWordC c || jsWsC c || isDashC c)) :=
      mem_of_mem_dropWhile (mem_dropTrail hc)
    rcases mem_collapseRunsAux hc4 with rfl | ⟨hc3, hdash⟩
    · decide
    rcases mem_collapseRunsAux hc3 with rfl | ⟨hc2, hws⟩
    · exact absurd hdash (by decide)
    obtain ⟨hc1, hq⟩ := List.mem_filter.mp hc2
    have hup := hl1 c hc1
    simp only [Bool.or_eq_true] at hq
    rcases hq with (hw | hws2) | hd2
    · simp only [isWordC, Bool.or_eq_true] at hw
      simp only [slugOutC, Bool.or_eq_true]
      rcases hw with ((hlo | hu) | hdg) | h95
      · exact Or.inl (Or.inl (Or.inl hlo))
      · rw [hu] at hup; cases hup
      · exact Or.inl (Or.inl (Or.inr hdg))
      · exact Or.inl (Or.inr h95)
    · rw [hws2] at hws; cases hws
    · rw [hd2] at hdash; cases hdash
  · rw [hres]
    intro hh
    cases hresl : dropTrail isDashC
        ((collapseRunsAux isDashC '-' false
          (collapseRunsAux jsWsC '-' false
            ((trimStr (lowerStr t)).toList.filter fun c =>
              isWordC c || jsWsC c || isDashC c))).dropWhile isDashC) with
    | nil => rw [hresl] at hh; simp at hh
    | cons y ys =>
      rw [hresl] at hh
      simp only [List.head?_cons, Option.some.injEq] at hh
      subst hh
      obtain ⟨t0, ht0⟩ := dropTrail_head_eq hresl
      have := dropWhile_head_false ht0
      exact absurd this (by decide)
  · rw [hres]
    intro hh
    cases hresl : (dropTrail isDashC
        ((collapseRunsAux isDashC '-' false
          (collapseRunsAux jsWsC '-' false
            ((trimStr (lowerStr t)).toList.filter fun c =>
              isWordC c || jsWsC c || isDashC c))).dropWhile isDashC)).getLast?
      with
    | none => rw [hresl] at hh; cases hh
    | some z =>
      rw [hresl] at hh
      injection hh with hz
      subst hz
      have := dropTrail_getLast_false hresl
      exact absurd this (by decide)
  · rw [hres]
    have hchain := chain_collapseRunsAux (p := isDashC) (r := '-')
      (collapseRunsAux jsWsC '-' false
        ((trimStr (lowerStr t)).toList.filter fun c =>
          isWordC c || jsWsC c || isDashC c)) false
    have hchain2 : List.Chain' (fun a b => ¬(a = '-' ∧ b = '-'))
        (collapseRunsAux isDashC '-' false
          (collapseRunsAux jsWsC '-' false
            ((trimStr (lowerStr t)).toList.filter fun c =>
              isWordC c || jsWsC c || isDashC c))) := by
      refine hchain.imp ?_
      intro a b hab
      rintro ⟨rfl, rfl⟩
      exact hab ⟨by decide, by decide⟩
    exact chain_dropTrail (chain_dropWhile hchain2)

/-- Witness for C4 (amended) at a concrete title with punctuation and
whitespace runs: the derived slug is hyphen-separated with clean edges. -/
theorem slugify_amended_witness :
    (∀ c ∈ (slugify " --Tech & AI Events-- ").toList, slugOutC c = true) ∧
    (slugify " --Tech & AI Events-- ").toList.head? ≠ some '-' :=
  ⟨(slugify_amended " --Tech & AI Events-- ").2.1,
   (slugify_amended " --Tech & AI Events-- ").2.2.1⟩

end DevEvents
